import Mathlib

/-!
Verification of the rich live output callback plugin (rlo) against its
natural-language specification.  The definitions below are shallow
embeddings of the Python sources:

* `transform_dict`, `Identity.transform` — structural traversal applying a
  transform callback to every string leaf (rlo_cb.py, identity.py);
* `Sanitizer.transform` — control-byte sanitizer (sanitizer.py);
* the visibility policy, result shapers and time formatter of rlo_cb.py;
* the progress-slot tracker and role-banner state machine of rlo_cb.py.

Python dictionaries are modelled as association lists with distinct keys,
Python strings as Lean `String` (or `List Char` where per-character
reasoning is needed), and Python floats as exact rationals.
-/

/-- A structured result value as traversed by `transform_dict`: strings,
mappings, sequences, numbers, booleans, null — plus `vother`, a leaf of a
type the traversal does not recognize (carrying the rendering of its
Python type, as interpolated by the source's error f-string).  The
source's tuple branch returns a lazy generator and lies outside the
mapping/sequence/scalar domain treated here. -/
inductive Value where
  | vstr (s : String)
  | vint (n : Int)
  | vfloat (x : Rat)
  | vbool (b : Bool)
  | vnull
  | vlist (l : List Value)
  | vdict (l : List (String × Value))
  | vother (typeName : String)

mutual

/-- Embedding of `transform_dict(data, callback)` (rlo_cb.py lines 139-151):
strings go through the callback, dicts keep their keys and transform the
values, lists transform elementwise, `None`/int/float/bool pass through,
and any other leaf becomes the sentinel error string. -/
def transform_dict (data : Value) (callback : String → String) : Value :=
match data with
| .vstr s => .vstr (callback s)
| .vdict l => .vdict (transform_pairs l callback)
| .vlist l => .vlist (transform_list l callback)
| .vnull => .vnull
| .vint n => .vint n
| .vfloat x => .vfloat x
| .vbool b => .vbool b
| .vother t => .vstr ("<RLO error - unrecognized type - " ++ t ++ ">")

def transform_list (l : List Value) (callback : String → String) : List Value :=
match l with
| [] => []
| d :: rest => transform_dict d callback :: transform_list rest callback

def transform_pairs (l : List (String × Value)) (callback : String → String) :
    List (String × Value) :=
match l with
| [] => []
| (k, v) :: rest => (k, transform_dict v callback) :: transform_pairs rest callback

end

/-- The shape of a value: mapping keys and sequence length/order, with all
leaves collapsed. -/
inductive Shape where
  | leaf
  | slist (l : List Shape)
  | sdict (l : List (String × Shape))

mutual

def Value.shape (v : Value) : Shape :=
match v with
| .vlist l => .slist (shapeList l)
| .vdict l => .sdict (shapePairs l)
| _ => .leaf

def shapeList (l : List Value) : List Shape :=
match l with
| [] => []
| v :: rest => v.shape :: shapeList rest

def shapePairs (l : List (String × Value)) : List (String × Shape) :=
match l with
| [] => []
| (k, v) :: rest => (k, v.shape) :: shapePairs rest

end

mutual

/-- `recognized v` holds when every leaf of `v` is of a type the traversal
recognizes (no `vother` leaf anywhere). -/
def recognized (v : Value) : Bool :=
match v with
| .vother _ => false
| .vlist l => recognizedList l
| .vdict l => recognizedPairs l
| _ => true

def recognizedList (l : List Value) : Bool :=
match l with
| [] => true
| v :: rest => recognized v && recognizedList rest

def recognizedPairs (l : List (String × Value)) : Bool :=
match l with
| [] => true
| (_, v) :: rest => recognized v && recognizedPairs rest

end

namespace Identity

/-- Embedding of `Identity.transform` (rlo/transformers/identity.py): the
no-op transformer. -/
def transform (input : String) : String := input

end Identity

mutual

theorem shape_transform_dict (v : Value) (f : String → String) :
    (transform_dict v f).shape = v.shape := by
  cases v with
  | vstr s => rfl
  | vint n => rfl
  | vfloat x => rfl
  | vbool b => rfl
  | vnull => rfl
  | vother t => rfl
  | vlist l => simp [transform_dict, Value.shape, shape_transform_list l f]
  | vdict l => simp [transform_dict, Value.shape, shape_transform_pairs l f]

theorem shape_transform_list (l : List Value) (f : String → String) :
    shapeList (transform_list l f) = shapeList l := by
  cases l with
  | nil => rfl
  | cons v rest =>
      simp [transform_list, shapeList, shape_transform_dict v f,
        shape_transform_list rest f]

theorem shape_transform_pairs (l : List (String × Value)) (f : String → String) :
    shapePairs (transform_pairs l f) = shapePairs l := by
  cases l with
  | nil => rfl
  | cons p rest =>
      cases p with
      | mk k v =>
          simp [transform_pairs, shapePairs, shape_transform_dict v f,
            shape_transform_pairs rest f]

end

mutual

theorem identity_transform_dict (v : Value) (h : recognized v = true) :
    transform_dict v Identity.transform = v := by
  cases v with
  | vstr s => rfl
  | vint n => rfl
  | vfloat x => rfl
  | vbool b => rfl
  | vnull => rfl
  | vother t => simp [recognized] at h
  | vlist l =>
      simp only [recognized] at h
      simp [transform_dict, identity_transform_list l h]
  | vdict l =>
      simp only [recognized] at h
      simp [transform_dict, identity_transform_pairs l h]

theorem identity_transform_list (l : List Value) (h : recognizedList l = true) :
    transform_list l Identity.transform = l := by
  cases l with
  | nil => rfl
  | cons v rest =>
      simp only [recognizedList, Bool.and_eq_true] at h
      simp [transform_list, identity_transform_dict v h.1,
        identity_transform_list rest h.2]

theorem identity_transform_pairs (l : List (String × Value))
    (h : recognizedPairs l = true) :
    transform_pairs l Identity.transform = l := by
  cases l with
  | nil => rfl
  | cons p rest =>
      cases p with
      | mk k v =>
          simp only [recognizedPairs, Bool.and_eq_true] at h
          simp [transform_pairs, identity_transform_dict v h.1,
            identity_transform_pairs rest h.2]

end

/-- C3: `transform_dict` preserves the shape of every value built from
mappings, sequences, strings, numbers, booleans and nulls (mappings keep
the same keys, sequences keep length and order), replaces every string
leaf `s` by `f s`, passes numbers, booleans and null through unchanged,
maps an unrecognized leaf to the sentinel error string instead of failing,
and with the `Identity` transformer returns the value unchanged. -/
theorem transform_dict_spec :
    (∀ (v : Value) (f : String → String), (transform_dict v f).shape = v.shape)
    ∧ (∀ (s : String) (f : String → String),
        transform_dict (.vstr s) f = .vstr (f s))
    ∧ (∀ (n : Int) (f : String → String), transform_dict (.vint n) f = .vint n)
    ∧ (∀ (x : Rat) (f : String → String),
        transform_dict (.vfloat x) f = .vfloat x)
    ∧ (∀ (b : Bool) (f : String → String),
        transform_dict (.vbool b) f = .vbool b)
    ∧ (∀ f : String → String, transform_dict .vnull f = .vnull)
    ∧ (∀ (t : String) (f : String → String),
        transform_dict (.vother t) f
          = .vstr ("<RLO error - unrecognized type - " ++ t ++ ">"))
    ∧ (∀ v : Value, recognized v = true →
        transform_dict v Identity.transform = v) :=
  ⟨shape_transform_dict, fun _ _ => rfl, fun _ _ => rfl, fun _ _ => rfl,
    fun _ _ => rfl, fun _ => rfl, fun _ _ => rfl, identity_transform_dict⟩

/-- Witness for C3 at a concrete nested value containing a mapping, a
sequence, a string and scalars. -/
theorem transform_dict_spec_witness :
    recognized (.vdict [("a", .vlist [.vstr "x", .vint 3, .vnull])]) = true
    ∧ transform_dict (.vdict [("a", .vlist [.vstr "x", .vint 3, .vnull])])
        Identity.transform
      = .vdict [("a", .vlist [.vstr "x", .vint 3, .vnull])] :=
  ⟨rfl, transform_dict_spec.2.2.2.2.2.2.2
    (.vdict [("a", .vlist [.vstr "x", .vint 3, .vnull])]) rfl⟩

/-- Python `current.replace(chr(b), repl)` for a single-character pattern:
each occurrence of the character `old` in the string (as a character list)
is replaced by `new`, all other characters are kept. -/
def replaceChar (s : List Char) (old : Char) (new : List Char) : List Char :=
match s with
| [] => []
| c :: rest => (if c = old then new else [c]) ++ replaceChar rest old new

/-- The `BLACKLISTED_BYTES` table of sanitizer.py, in source order.  Tab
(0x09) and line feed (0x0A) are deliberately absent. -/
def BLACKLISTED_BYTES : List (Char × String) :=
  [(Char.ofNat 0x07, "<BEL>"), (Char.ofNat 0x08, "<BS>"),
   (Char.ofNat 0x0C, "<FF>"), (Char.ofNat 0x0D, "<CR>"),
   (Char.ofNat 0x1B, "<ESC>"), (Char.ofNat 0x7F, "<DEL>")]

namespace Sanitizer

/-- Embedding of `Sanitizer.transform` (sanitizer.py): fold the six
single-character replacements over the input in table order. -/
def transform (input : List Char) : List Char :=
  BLACKLISTED_BYTES.foldl (fun current p => replaceChar current p.1 p.2.toList) input

end Sanitizer

theorem replaceChar_append (a b : List Char) (old : Char) (new : List Char) :
    replaceChar (a ++ b) old new = replaceChar a old new ++ replaceChar b old new := by
  induction a with
  | nil => rfl
  | cons c rest ih => simp [replaceChar, ih]

theorem foldl_replace_append (L : List (Char × String)) (a b : List Char) :
    L.foldl (fun current p => replaceChar current p.1 p.2.toList) (a ++ b)
      = L.foldl (fun current p => replaceChar current p.1 p.2.toList) a
        ++ L.foldl (fun current p => replaceChar current p.1 p.2.toList) b := by
  induction L generalizing a b with
  | nil => rfl
  | cons p rest ih =>
      simp only [List.foldl]
      rw [replaceChar_append]
      exact ih _ _

theorem sanitize_append (a b : List Char) :
    Sanitizer.transform (a ++ b) = Sanitizer.transform a ++ Sanitizer.transform b :=
  foldl_replace_append BLACKLISTED_BYTES a b

theorem sanitize_cons (c : Char) (s : List Char) :
    Sanitizer.transform (c :: s) = Sanitizer.transform [c] ++ Sanitizer.transform s := by
  have h := sanitize_append [c] s
  simpa using h

theorem sanitize_single_other (c : Char)
    (h1 : c ≠ Char.ofNat 0x07) (h2 : c ≠ Char.ofNat 0x08)
    (h3 : c ≠ Char.ofNat 0x0C) (h4 : c ≠ Char.ofNat 0x0D)
    (h5 : c ≠ Char.ofNat 0x1B) (h6 : c ≠ Char.ofNat 0x7F) :
    Sanitizer.transform [c] = [c] := by
  simp [Sanitizer.transform, BLACKLISTED_BYTES, List.foldl, replaceChar,
    h1, h2, h3, h4, h5, h6]

theorem sanitize_single_idem (c : Char) :
    Sanitizer.transform (Sanitizer.transform [c]) = Sanitizer.transform [c] := by
  by_cases h1 : c = Char.ofNat 0x07
  · subst h1; decide
  by_cases h2 : c = Char.ofNat 0x08
  · subst h2; decide
  by_cases h3 : c = Char.ofNat 0x0C
  · subst h3; decide
  by_cases h4 : c = Char.ofNat 0x0D
  · subst h4; decide
  by_cases h5 : c = Char.ofNat 0x1B
  · subst h5; decide
  by_cases h6 : c = Char.ofNat 0x7F
  · subst h6; decide
  rw [sanitize_single_other c h1 h2 h3 h4 h5 h6,
    sanitize_single_other c h1 h2 h3 h4 h5 h6]

theorem sanitize_idem (s : List Char) :
    Sanitizer.transform (Sanitizer.transform s) = Sanitizer.transform s := by
  induction s with
  | nil => rfl
  | cons c rest ih =>
      rw [sanitize_cons, sanitize_append, sanitize_single_idem, ih]

/-- C4: `Sanitizer.transform` replaces every occurrence of each of the six
control characters BEL, BS, FF, CR, ESC and DEL by its exact bracketed
placeholder, leaves tab and line feed untouched, is idempotent, and maps
the example input `a BEL b ESC c` to `a<BEL>b<ESC>c`. -/
theorem sanitizer_transform_spec :
    (∀ s : List Char,
      Sanitizer.transform (Sanitizer.transform s) = Sanitizer.transform s)
    ∧ (∀ xs ys : List Char,
        Sanitizer.transform (xs ++ Char.ofNat 0x07 :: ys)
          = Sanitizer.transform xs ++ "<BEL>".toList ++ Sanitizer.transform ys)
    ∧ (∀ xs ys : List Char,
        Sanitizer.transform (xs ++ Char.ofNat 0x08 :: ys)
          = Sanitizer.transform xs ++ "<BS>".toList ++ Sanitizer.transform ys)
    ∧ (∀ xs ys : List Char,
        Sanitizer.transform (xs ++ Char.ofNat 0x0C :: ys)
          = Sanitizer.transform xs ++ "<FF>".toList ++ Sanitizer.transform ys)
    ∧ (∀ xs ys : List Char,
        Sanitizer.transform (xs ++ Char.ofNat 0x0D :: ys)
          = Sanitizer.transform xs ++ "<CR>".toList ++ Sanitizer.transform ys)
    ∧ (∀ xs ys : List Char,
        Sanitizer.transform (xs ++ Char.ofNat 0x1B :: ys)
          = Sanitizer.transform xs ++ "<ESC>".toList ++ Sanitizer.transform ys)
    ∧ (∀ xs ys : List Char,
        Sanitizer.transform (xs ++ Char.ofNat 0x7F :: ys)
          = Sanitizer.transform xs ++ "<DEL>".toList ++ Sanitizer.transform ys)
    ∧ (∀ xs ys : List Char,
        Sanitizer.transform (xs ++ '\t' :: ys)
          = Sanitizer.transform xs ++ '\t' :: Sanitizer.transform ys)
    ∧ (∀ xs ys : List Char,
        Sanitizer.transform (xs ++ '\n' :: ys)
          = Sanitizer.transform xs ++ '\n' :: Sanitizer.transform ys)
    ∧ Sanitizer.transform ['a', Char.ofNat 0x07, 'b', Char.ofNat 0x1B, 'c']
        = "a<BEL>b<ESC>c".toList := by
  refine ⟨sanitize_idem, ?_, ?_, ?_, ?_, ?_, ?_, ?_, ?_, by decide⟩ <;>
    intro xs ys <;>
    rw [sanitize_append, sanitize_cons] <;>
    simp [List.append_assoc]
  · have h : Sanitizer.transform [Char.ofNat 0x07] = "<BEL>".toList := by decide
    rw [h]
    rfl
  · have h : Sanitizer.transform [Char.ofNat 0x08] = "<BS>".toList := by decide
    rw [h]
    rfl
  · have h : Sanitizer.transform [Char.ofNat 0x0C] = "<FF>".toList := by decide
    rw [h]
    rfl
  · have h : Sanitizer.transform [Char.ofNat 0x0D] = "<CR>".toList := by decide
    rw [h]
    rfl
  · have h : Sanitizer.transform [Char.ofNat 0x1B] = "<ESC>".toList := by decide
    rw [h]
    rfl
  · have h : Sanitizer.transform [Char.ofNat 0x7F] = "<DEL>".toList := by decide
    rw [h]
    rfl
  · have h : Sanitizer.transform ['\t'] = ['\t'] := by decide
    rw [h]
    rfl
  · have h : Sanitizer.transform ['\n'] = ['\n'] := by decide
    rw [h]
    rfl

/-- Status of a finished-task event, as passed by the `v2_runner_on_*`
dispatchers to `_on_finished_task`. -/
inductive Status where
  | ok
  | skipped
  | failed
  | unreachable
deriving DecidableEq

/-- The task metadata read by the callback: `task.action`, `task.no_log`
and the task-level variables `task.vars`. -/
structure TaskInfo where
  action : String
  no_log : Bool
  vars : List (String × Value)

/-- The parts of an Ansible `TaskResult` the policy reads: the structured
`result._result` mapping and the outcome of `result.is_changed()`. -/
structure ResultInfo where
  result : List (String × Value)
  changed : Bool

/-- The display options `_should_log_task` consults via `get_option`. -/
structure DisplayOptions where
  display_skipped_hosts : Bool
  display_ok_hosts : Bool

/-- Embedding of `_run_is_verbose(result, verbosity)`: true when the
display verbosity is strictly greater than the given threshold. -/
def run_is_verbose (verbosity v : Nat) : Bool := verbosity > v

/-- Embedding of `_should_log_task(result, status)` (rlo_cb.py lines
330-347): the if-chain deciding whether a log line is printed for a
finished task. -/
def should_log_task (opts : DisplayOptions) (verbosity : Nat) (task : TaskInfo)
    (res : ResultInfo) (status : Status) : Bool :=
  if run_is_verbose verbosity 1 then true
  else if task.action == "debug" && !task.no_log then true
  else if status == Status.failed || status == Status.unreachable then true
  else if status == Status.skipped
      && (opts.display_skipped_hosts || run_is_verbose verbosity 2) then true
  else if status == Status.ok
      && (res.changed || opts.display_ok_hosts || run_is_verbose verbosity 2) then true
  else false

/-- Embedding of `_should_print_comprehensive_task_result(result, status)`
(rlo_cb.py lines 349-360). -/
def should_print_comprehensive_task_result (verbosity : Nat) (task : TaskInfo)
    (status : Status) : Bool :=
  if run_is_verbose verbosity 3 then true
  else if status == Status.failed then true
  else if task.action == "debug" && !task.no_log then true
  else false

/-- Embedding of `_should_print_reduced_task_result(result, status)`
(rlo_cb.py lines 362-370). -/
def should_print_reduced_task_result (verbosity : Nat) (res : ResultInfo)
    (status : Status) : Bool :=
  if run_is_verbose verbosity 1 then true
  else if status == Status.ok && res.changed then true
  else false

/-- Which structured result payload a finished task gets. -/
inductive ResultForm where
  | comprehensive
  | reduced
deriving DecidableEq

/-- Embedding of the payload dispatch of `_on_finished_task` (rlo_cb.py
lines 401-405): comprehensive if its predicate holds, else reduced if its
predicate holds, else nothing. -/
def finished_task_result_form (verbosity : Nat) (task : TaskInfo)
    (res : ResultInfo) (status : Status) : Option ResultForm :=
  if should_print_comprehensive_task_result verbosity task status then
    some ResultForm.comprehensive
  else if should_print_reduced_task_result verbosity res status then
    some ResultForm.reduced
  else none

/-- C1: `_should_log_task` returns true exactly when the verbosity exceeds
1, or the task is a `debug` action without `no_log`, or the status is
failed or unreachable, or the status is skipped and skipped hosts are
displayed or verbosity exceeds 2, or the status is ok and the result is
changed, ok hosts are displayed, or verbosity exceeds 2.  In particular at
verbosity 0 (for a task that is not an unsuppressed debug action): ok with
no change and no display options is not logged, failed is always logged,
and skipped is logged exactly when `display_skipped_hosts` is set. -/
theorem should_log_task_spec :
    (∀ (opts : DisplayOptions) (verbosity : Nat) (task : TaskInfo)
        (res : ResultInfo) (status : Status),
      should_log_task opts verbosity task res status = true ↔
        (verbosity > 1
          ∨ (task.action = "debug" ∧ task.no_log = false)
          ∨ status = Status.failed ∨ status = Status.unreachable
          ∨ (status = Status.skipped
              ∧ (opts.display_skipped_hosts = true ∨ verbosity > 2))
          ∨ (status = Status.ok
              ∧ (res.changed = true ∨ opts.display_ok_hosts = true
                  ∨ verbosity > 2))))
    ∧ (∀ (opts : DisplayOptions) (task : TaskInfo) (res : ResultInfo),
        ¬(task.action = "debug" ∧ task.no_log = false) →
        res.changed = false → opts.display_ok_hosts = false →
        should_log_task opts 0 task res Status.ok = false)
    ∧ (∀ (opts : DisplayOptions) (task : TaskInfo) (res : ResultInfo),
        should_log_task opts 0 task res Status.failed = true)
    ∧ (∀ (opts : DisplayOptions) (task : TaskInfo) (res : ResultInfo),
        opts.display_skipped_hosts = true →
        should_log_task opts 0 task res Status.skipped = true)
    ∧ (∀ (opts : DisplayOptions) (task : TaskInfo) (res : ResultInfo),
        ¬(task.action = "debug" ∧ task.no_log = false) →
        opts.display_skipped_hosts = false →
        should_log_task opts 0 task res Status.skipped = false) := by
  refine ⟨?_, ?_, ?_, ?_, ?_⟩
  · intro opts verbosity task res status
    cases status <;>
      simp [should_log_task, run_is_verbose, decide_eq_true_eq,
        Bool.and_eq_true, Bool.or_eq_true, beq_iff_eq, Bool.not_eq_true'] <;>
      tauto
  · intro opts task res hdbg hch hok
    simp [should_log_task, run_is_verbose, Bool.and_eq_true, Bool.or_eq_true,
      beq_iff_eq, Bool.not_eq_true', hch, hok]
    intro ha
    rcases hdbg2 : task.no_log with _ | _
    · exact absurd ⟨ha, hdbg2⟩ hdbg
    · simp [hdbg2]
  · intro opts task res
    simp [should_log_task]
  · intro opts task res hskip
    simp [should_log_task, run_is_verbose, hskip]
  · intro opts task res hdbg hskip
    simp [should_log_task, run_is_verbose, Bool.and_eq_true, Bool.or_eq_true,
      beq_iff_eq, Bool.not_eq_true', hskip]
    intro ha
    rcases hdbg2 : task.no_log with _ | _
    · exact absurd ⟨ha, hdbg2⟩ hdbg
    · simp [hdbg2]

/-- Witness for C1 at verbosity 0 with a plain `copy` task: failed logs,
unchanged ok with no options does not. -/
theorem should_log_task_spec_witness :
    should_log_task ⟨false, false⟩ 0 ⟨"copy", false, []⟩ ⟨[], false⟩
        Status.failed = true
    ∧ should_log_task ⟨false, false⟩ 0 ⟨"copy", false, []⟩ ⟨[], false⟩
        Status.ok = false :=
  ⟨should_log_task_spec.2.2.1 ⟨false, false⟩ ⟨"copy", false, []⟩ ⟨[], false⟩,
    should_log_task_spec.2.1 ⟨false, false⟩ ⟨"copy", false, []⟩ ⟨[], false⟩
      (by simp) rfl rfl⟩

/-- C2: per finished task at most one structured payload form is selected;
the comprehensive form is selected exactly when its predicate (verbosity
over 3, failed status, or unsuppressed debug action) holds, the reduced
form exactly when the comprehensive predicate fails and the reduced
predicate (verbosity over 1, or ok status with a change) holds, and when
neither predicate holds no payload is selected even when the log-line
decision is positive. -/
theorem finished_task_result_form_spec :
    (∀ (verbosity : Nat) (task : TaskInfo) (res : ResultInfo) (status : Status),
      should_print_comprehensive_task_result verbosity task status = true ↔
        (verbosity > 3 ∨ status = Status.failed
          ∨ (task.action = "debug" ∧ task.no_log = false)))
    ∧ (∀ (verbosity : Nat) (res : ResultInfo) (status : Status),
      should_print_reduced_task_result verbosity res status = true ↔
        (verbosity > 1 ∨ (status = Status.ok ∧ res.changed = true)))
    ∧ (∀ (verbosity : Nat) (task : TaskInfo) (res : ResultInfo) (status : Status),
        should_print_comprehensive_task_result verbosity task status = true →
        finished_task_result_form verbosity task res status
          = some ResultForm.comprehensive)
    ∧ (∀ (verbosity : Nat) (task : TaskInfo) (res : ResultInfo) (status : Status),
        should_print_comprehensive_task_result verbosity task status = false →
        should_print_reduced_task_result verbosity res status = true →
        finished_task_result_form verbosity task res status
          = some ResultForm.reduced)
    ∧ (∀ (verbosity : Nat) (task : TaskInfo) (res : ResultInfo) (status : Status)
        (opts : DisplayOptions),
        should_print_comprehensive_task_result verbosity task status = false →
        should_print_reduced_task_result verbosity res status = false →
        should_log_task opts verbosity task res status = true →
        finished_task_result_form verbosity task res status = none)
    ∧ (∀ (verbosity : Nat) (task : TaskInfo) (res : ResultInfo) (status : Status)
        (k k' : ResultForm),
        finished_task_result_form verbosity task res status = some k →
        finished_task_result_form verbosity task res status = some k' →
        k = k') := by
  refine ⟨?_, ?_, ?_, ?_, ?_, ?_⟩
  · intro verbosity task res status
    cases status <;>
      simp [should_print_comprehensive_task_result, run_is_verbose,
        decide_eq_true_eq, Bool.and_eq_true, beq_iff_eq, Bool.not_eq_true'] <;>
      tauto
  · intro verbosity res status
    cases status <;>
      simp [should_print_reduced_task_result, run_is_verbose,
        decide_eq_true_eq, Bool.and_eq_true, beq_iff_eq] <;>
      tauto
  · intro verbosity task res status h
    simp [finished_task_result_form, h]
  · intro verbosity task res status hc hr
    simp [finished_task_result_form, hc, hr]
  · intro verbosity task res status opts hc hr _
    simp [finished_task_result_form, hc, hr]
  · intro verbosity task res status k k' hk hk'
    rw [hk] at hk'
    exact Option.some_inj.mp hk'

/-- Witness for C2 at verbosity 0: a failed task selects the comprehensive
form; an unchanged ok task selects none although it could log a line with
`display_ok_hosts` set. -/
theorem finished_task_result_form_spec_witness :
    finished_task_result_form 0 ⟨"copy", false, []⟩ ⟨[], false⟩ Status.failed
      = some ResultForm.comprehensive
    ∧ finished_task_result_form 0 ⟨"copy", false, []⟩ ⟨[], false⟩ Status.ok
      = none :=
  ⟨finished_task_result_form_spec.2.2.1 0 ⟨"copy", false, []⟩ ⟨[], false⟩
      Status.failed (by rfl),
    finished_task_result_form_spec.2.2.2.2.1 0 ⟨"copy", false, []⟩ ⟨[], false⟩
      Status.ok ⟨false, true⟩ (by rfl) (by rfl) (by rfl)⟩

/-- Lookup in a Python dict modelled as an association list with distinct
keys. -/
def alookup (l : List (String × Value)) (k : String) : Option Value :=
match l with
| [] => none
| (k', v) :: rest => if k' = k then some v else alookup rest k

/-- Python `del d[k]` / key removal, on the association-list model. -/
def aremove (l : List (String × Value)) (k : String) : List (String × Value) :=
  l.filter (fun p => decide (p.1 ≠ k))

/-- Python `d[k] = v` on the association-list model: replace the value at
an existing key, else append the new binding (dict insertion order). -/
def aset (l : List (String × Value)) (k : String) (v : Value) :
    List (String × Value) :=
  if (alookup l k).isSome then
    l.map (fun p => if p.1 = k then (k, v) else p)
  else l ++ [(k, v)]

/-- Whether key `k` is present (`k in d`). -/
def hasKey (l : List (String × Value)) (k : String) : Bool :=
  (alookup l k).isSome

/-- Embedding of `_censored_no_log_response` (rlo_cb.py lines 446-447). -/
def censored_no_log_response : List (String × Value) :=
  [("censored", Value.vstr "the output has been hidden due to the fact that 'no_log: true' was specified for this result (via RLO)")]

/-- Modelled at the interface boundary: ansible's `strip_internal_keys`
(an external collaborator of this repository), which removes the
framework-internal keys starting with `_ansible_` from the result; the
spec treats it only as this stripping step.  `module_response_deepcopy`
is the identity on value semantics. -/
def strip_internal_keys (r : List (String × Value)) : List (String × Value) :=
  r.filter (fun p => !p.1.startsWith "_ansible_")

/-- Embedding of `_get_comprehensive_result_object(result, task)`
(rlo_cb.py lines 454-481), with the display verbosity made an explicit
argument. -/
def get_comprehensive_result_object (verbosity : Nat)
    (result : List (String × Value)) (task : TaskInfo) :
    List (String × Value) :=
  if task.no_log && !run_is_verbose verbosity 2 then censored_no_log_response
  else
    let c0 := strip_internal_keys result
    let c1 := if !run_is_verbose verbosity 3 && hasKey result "invocation" then
        aremove c0 "invocation" else c0
    let c2 := if !run_is_verbose verbosity 2 then
        let ca := if hasKey result "diff" then aremove c1 "diff" else c1
        if hasKey ca "skipped" then aremove ca "skipped" else ca
      else c1
    let c3 := if hasKey c2 "stdout" && hasKey c2 "stdout_lines" then
        aset c2 "stdout_lines" (Value.vstr "<omitted>") else c2
    let c4 := if hasKey c3 "stderr" && hasKey c3 "stderr_lines" then
        aset c3 "stderr_lines" (Value.vstr "<omitted>") else c3
    if !task.vars.isEmpty then aset c4 "task_vars" (Value.vdict task.vars)
    else c4

/-- Python `result["msg"] != "All items completed"` is false exactly when
the value is that literal string. -/
def isAllItemsCompleted (v : Value) : Bool :=
match v with
| .vstr s => s == "All items completed"
| _ => false

/-- The non-censored body of `_get_reduced_result_object`: `stdout` and
`stderr` when present, `msg` when present and not the loop-completion
literal, `task_vars` when the task has task-level vars, built in the
source's insertion order. -/
def reduced_core (result : List (String × Value)) (task : TaskInfo) :
    List (String × Value) :=
  (match alookup result "stdout" with
    | some v => [("stdout", v)]
    | none => [])
  ++ (match alookup result "stderr" with
    | some v => [("stderr", v)]
    | none => [])
  ++ (match alookup result "msg" with
    | some m => if isAllItemsCompleted m then [] else [("msg", m)]
    | none => [])
  ++ (if task.vars.isEmpty then [] else [("task_vars", Value.vdict task.vars)])

/-- Embedding of `_get_reduced_result_object(result, task)` (rlo_cb.py
lines 486-505). -/
def get_reduced_result_object (verbosity : Nat)
    (result : List (String × Value)) (task : TaskInfo) :
    List (String × Value) :=
  if task.no_log && !run_is_verbose verbosity 2 then censored_no_log_response
  else reduced_core result task

/-- Embedding of the guard of `_print_result` (rlo_cb.py lines 507-514):
a falsy (empty) preprocessed result prints nothing. -/
def print_result_prints (preprocessed_result : List (String × Value)) : Bool :=
  !preprocessed_result.isEmpty

/-- C7: a `no_log` task at verbosity 0 always shapes to the fixed censored
object, in both the comprehensive and the reduced form, for every result
and regardless of status. -/
theorem no_log_censored_spec :
    ∀ (result : List (String × Value)) (task : TaskInfo),
      task.no_log = true →
      get_comprehensive_result_object 0 result task = censored_no_log_response
      ∧ get_reduced_result_object 0 result task = censored_no_log_response := by
  intro result task h
  constructor
  · simp [get_comprehensive_result_object, run_is_verbose, h]
  · simp [get_reduced_result_object, run_is_verbose, h]

/-- Witness for C7: a concrete `no_log` task with a nonempty result. -/
theorem no_log_censored_spec_witness :
    (⟨"shell", true, []⟩ : TaskInfo).no_log = true
    ∧ get_comprehensive_result_object 0 [("stdout", Value.vstr "secret")]
        ⟨"shell", true, []⟩ = censored_no_log_response
    ∧ get_reduced_result_object 0 [("stdout", Value.vstr "secret")]
        ⟨"shell", true, []⟩ = censored_no_log_response :=
  ⟨rfl,
    (no_log_censored_spec [("stdout", Value.vstr "secret")]
      ⟨"shell", true, []⟩ rfl).1,
    (no_log_censored_spec [("stdout", Value.vstr "secret")]
      ⟨"shell", true, []⟩ rfl).2⟩

theorem mem_reduced_core (result : List (String × Value)) (task : TaskInfo)
    (k : String) (v : Value) :
    (k, v) ∈ reduced_core result task ↔
      ((k = "stdout" ∧ alookup result "stdout" = some v)
        ∨ (k = "stderr" ∧ alookup result "stderr" = some v)
        ∨ (k = "msg" ∧ alookup result "msg" = some v
            ∧ isAllItemsCompleted v = false)
        ∨ (k = "task_vars" ∧ task.vars ≠ []
            ∧ v = Value.vdict task.vars)) := by
  rcases h1 : alookup result "stdout" with _ | v1 <;>
  rcases h2 : alookup result "stderr" with _ | v2 <;>
  rcases h3 : alookup result "msg" with _ | m <;>
  rcases hv : task.vars with _ | ⟨p, rest⟩ <;>
  simp [reduced_core, h1, h2, h3, hv] <;>
  aesop

/-- C8: for a task not subject to `no_log` censorship the reduced result
object contains exactly the `stdout` and `stderr` entries of the result
when present, the `msg` entry when present and not the literal loop
completion message, and a `task_vars` entry when the task has task-level
vars — no other entries; and when the object is empty `_print_result`
prints nothing. -/
theorem reduced_result_object_spec :
    ∀ (verbosity : Nat) (result : List (String × Value)) (task : TaskInfo),
      ¬(task.no_log = true ∧ ¬verbosity > 2) →
      (∀ (k : String) (v : Value),
          (k, v) ∈ get_reduced_result_object verbosity result task ↔
            ((k = "stdout" ∧ alookup result "stdout" = some v)
              ∨ (k = "stderr" ∧ alookup result "stderr" = some v)
              ∨ (k = "msg" ∧ alookup result "msg" = some v
                  ∧ isAllItemsCompleted v = false)
              ∨ (k = "task_vars" ∧ task.vars ≠ []
                  ∧ v = Value.vdict task.vars)))
      ∧ (get_reduced_result_object verbosity result task = [] →
          print_result_prints
            (get_reduced_result_object verbosity result task) = false) := by
  intro verbosity result task h
  have hb : (task.no_log && !run_is_verbose verbosity 2) = false := by
    rcases Bool.eq_false_or_eq_true task.no_log with hn | hn
    · have hv : verbosity > 2 := by
        by_contra hv
        exact h ⟨hn, hv⟩
      simp [hn, run_is_verbose, hv]
    · simp [hn]
  have hobj : get_reduced_result_object verbosity result task
      = reduced_core result task := by
    simp [get_reduced_result_object, hb]
  rw [hobj]
  refine ⟨fun k v => mem_reduced_core result task k v, fun he => ?_⟩
  rw [he]
  rfl

/-- Witness for C8: with only the loop-completion `msg` in the result and
no task vars, the reduced object is empty and nothing is printed; the
`stdout` entry of a result is reported exactly. -/
theorem reduced_result_object_spec_witness :
    (("stdout", Value.vstr "hi")
        ∈ get_reduced_result_object 0 [("stdout", Value.vstr "hi")]
            ⟨"command", false, []⟩
      ↔ ((("stdout" : String) = "stdout"
            ∧ alookup [("stdout", Value.vstr "hi")] "stdout"
                = some (Value.vstr "hi"))
          ∨ (("stdout" : String) = "stderr"
            ∧ alookup [("stdout", Value.vstr "hi")] "stderr"
                = some (Value.vstr "hi"))
          ∨ (("stdout" : String) = "msg"
            ∧ alookup [("stdout", Value.vstr "hi")] "msg"
                = some (Value.vstr "hi")
            ∧ isAllItemsCompleted (Value.vstr "hi") = false)
          ∨ (("stdout" : String) = "task_vars"
            ∧ ([] : List (String × Value)) ≠ []
            ∧ Value.vstr "hi" = Value.vdict [])))
    ∧ print_result_prints
        (get_reduced_result_object 0
          [("msg", Value.vstr "All items completed")] ⟨"command", false, []⟩)
      = false :=
  ⟨(reduced_result_object_spec 0 [("stdout", Value.vstr "hi")]
      ⟨"command", false, []⟩ (by simp)).1 "stdout" (Value.vstr "hi"),
    (reduced_result_object_spec 0 [("msg", Value.vstr "All items completed")]
      ⟨"command", false, []⟩ (by simp)).2 (by rfl)⟩

/-- Python format spec `0>w`: left-pad the rendered number with zeros to
width `w`. -/
def lpad0 (w : Nat) (s : String) : String :=
  String.mk (List.replicate (w - s.length) '0') ++ s

/-- Python float `a % b` (sign of the divisor; here only used with
positive divisors), on the exact-rational model of the float values. -/
def pymod (a b : Rat) : Rat := a - b * (Int.floor (a / b) : Rat)

/-- Python `int(x)`: truncation toward zero. -/
def pyint (x : Rat) : Int := if x < 0 then Int.ceil x else Int.floor x

/-- Embedding of the static method `_format_float_seconds(n)` (rlo_cb.py
lines 604-614), with the float arithmetic modelled exactly on rationals. -/
def format_float_seconds (n : Rat) : String :=
  let milliseconds := pyint (pymod n 1 * 1000)
  if n < 1 then
    "." ++ lpad0 3 (toString milliseconds)
  else
    let seconds := pyint (pymod n 60)
    let minutes := pyint (n / 60) % 60
    let hours := pyint (n / 3600) % 3600
    toString hours ++ ":" ++ lpad0 2 (toString minutes) ++ ":"
      ++ lpad0 2 (toString seconds) ++ "." ++ lpad0 3 (toString milliseconds)

theorem pymod_eq_fract (a b : Rat) (hb : b ≠ 0) :
    pymod a b = b * Int.fract (a / b) := by
  have h : b * (a / b) = a := by field_simp
  rw [pymod, Int.fract, mul_sub, h]

theorem pymod_nonneg (a b : Rat) (hb : 0 < b) : 0 ≤ pymod a b := by
  rw [pymod_eq_fract a b (ne_of_gt hb)]
  exact mul_nonneg (le_of_lt hb) (Int.fract_nonneg _)

theorem pymod_lt (a b : Rat) (hb : 0 < b) : pymod a b < b := by
  rw [pymod_eq_fract a b (ne_of_gt hb)]
  calc b * Int.fract (a / b) < b * 1 :=
        mul_lt_mul_of_pos_left (Int.fract_lt_one _) hb
    _ = b := mul_one b

theorem pyint_eq_floor (x : Rat) (hx : 0 ≤ x) : pyint x = Int.floor x := by
  rw [pyint, if_neg (not_lt.mpr hx)]

theorem milliseconds_bounds (n : Rat) :
    0 ≤ pyint (pymod n 1 * 1000) ∧ pyint (pymod n 1 * 1000) < 1000 := by
  have h0 : (0:Rat) ≤ pymod n 1 * 1000 :=
    mul_nonneg (pymod_nonneg n 1 one_pos) (by norm_num)
  have h1 : pymod n 1 * 1000 < 1000 := by
    have := mul_lt_mul_of_pos_right (pymod_lt n 1 one_pos) (by norm_num : (0:Rat) < 1000)
    simpa using this
  rw [pyint_eq_floor _ h0]
  constructor
  · exact Int.floor_nonneg.mpr h0
  · exact Int.floor_lt.mpr (by exact_mod_cast h1)

theorem format_sub_second (n : Rat) (h0 : 0 ≤ n) (h1 : n < 1) :
    ∃ ms : Int, 0 ≤ ms ∧ ms < 1000
      ∧ format_float_seconds n = "." ++ lpad0 3 (toString ms) := by
  refine ⟨pyint (pymod n 1 * 1000), (milliseconds_bounds n).1,
    (milliseconds_bounds n).2, ?_⟩
  simp [format_float_seconds, h1]

theorem format_minutes_up (n : Rat) (h60 : 60 ≤ n) :
    ∃ hh mm ss ms : Int, 0 ≤ hh ∧ 0 ≤ mm ∧ mm < 60 ∧ 0 ≤ ss ∧ ss < 60
      ∧ 0 ≤ ms ∧ ms < 1000
      ∧ format_float_seconds n
        = toString hh ++ ":" ++ lpad0 2 (toString mm) ++ ":"
          ++ lpad0 2 (toString ss) ++ "." ++ lpad0 3 (toString ms) := by
  have hnot : ¬ n < 1 := not_lt.mpr (le_trans (by norm_num) h60)
  refine ⟨pyint (n / 3600) % 3600, pyint (n / 60) % 60, pyint (pymod n 60),
    pyint (pymod n 1 * 1000), ?_, ?_, ?_, ?_, ?_,
    (milliseconds_bounds n).1, (milliseconds_bounds n).2, ?_⟩
  · exact Int.emod_nonneg _ (by norm_num)
  · exact Int.emod_nonneg _ (by norm_num)
  · exact Int.emod_lt_of_pos _ (by norm_num)
  · rw [pyint_eq_floor _ (pymod_nonneg n 60 (by norm_num))]
    exact Int.floor_nonneg.mpr (pymod_nonneg n 60 (by norm_num))
  · rw [pyint_eq_floor _ (pymod_nonneg n 60 (by norm_num))]
    exact Int.floor_lt.mpr (by exact_mod_cast pymod_lt n 60 (by norm_num))
  · simp [format_float_seconds, hnot]

theorem format_example_sub_second :
    format_float_seconds (3 / 1000) = ".003" := by
  have hpm : pymod ((3:Rat) / 1000) 1 = 3 / 1000 := by
    rw [pymod]
    norm_num
  have hms : pyint (pymod ((3:Rat) / 1000) 1 * 1000) = 3 := by
    rw [hpm]
    have h : ((3:Rat) / 1000) * 1000 = 3 := by norm_num
    rw [pyint, h, if_neg (by norm_num : ¬(3:Rat) < 0)]
    norm_num
  have hlt : ((3:Rat) / 1000) < 1 := by norm_num
  simp [format_float_seconds, hlt, hms]
  rfl

theorem format_example_minute :
    format_float_seconds (131 / 2) = "0:01:05.500" := by
  have hms : pyint (pymod ((131:Rat) / 2) 1 * 1000) = 500 := by
    have hpm : pymod ((131:Rat) / 2) 1 = 1 / 2 := by
      rw [pymod]
      norm_num
    rw [hpm]
    have h : ((1:Rat) / 2) * 1000 = 500 := by norm_num
    rw [pyint, h, if_neg (by norm_num : ¬(500:Rat) < 0)]
    norm_num
  have hss : pyint (pymod ((131:Rat) / 2) 60) = 5 := by
    have hpm : pymod ((131:Rat) / 2) 60 = 11 / 2 := by
      rw [pymod]
      norm_num
    rw [hpm, pyint, if_neg (by norm_num : ¬(11:Rat) / 2 < 0)]
    norm_num
  have hmm : pyint ((131:Rat) / 2 / 60) % 60 = 1 := by
    have h : pyint ((131:Rat) / 2 / 60) = 1 := by
      rw [pyint, if_neg (by norm_num : ¬(131:Rat) / 2 / 60 < 0)]
      norm_num
    rw [h]
    decide
  have hhh : pyint ((131:Rat) / 2 / 3600) % 3600 = 0 := by
    have h : pyint ((131:Rat) / 2 / 3600) = 0 := by
      rw [pyint, if_neg (by norm_num : ¬(131:Rat) / 2 / 3600 < 0)]
      norm_num
    rw [h]
    decide
  have hnot : ¬ ((131:Rat) / 2) < 1 := by norm_num
  simp [format_float_seconds, hnot, hms, hss, hmm, hhh]
  rfl

theorem format_example_hour :
    format_float_seconds (29801 / 8) = "1:02:05.125" := by
  have hms : pyint (pymod ((29801:Rat) / 8) 1 * 1000) = 125 := by
    have hpm : pymod ((29801:Rat) / 8) 1 = 1 / 8 := by
      rw [pymod]
      norm_num
    rw [hpm]
    have h : ((1:Rat) / 8) * 1000 = 125 := by norm_num
    rw [pyint, h, if_neg (by norm_num : ¬(125:Rat) < 0)]
    norm_num
  have hss : pyint (pymod ((29801:Rat) / 8) 60) = 5 := by
    have hpm : pymod ((29801:Rat) / 8) 60 = 41 / 8 := by
      rw [pymod]
      norm_num
    rw [hpm, pyint, if_neg (by norm_num : ¬(41:Rat) / 8 < 0)]
    norm_num
  have hmm : pyint ((29801:Rat) / 8 / 60) % 60 = 2 := by
    have h : pyint ((29801:Rat) / 8 / 60) = 62 := by
      rw [pyint, if_neg (by norm_num : ¬(29801:Rat) / 8 / 60 < 0)]
      norm_num
    rw [h]
    decide
  have hhh : pyint ((29801:Rat) / 8 / 3600) % 3600 = 1 := by
    have h : pyint ((29801:Rat) / 8 / 3600) = 1 := by
      rw [pyint, if_neg (by norm_num : ¬(29801:Rat) / 8 / 3600 < 0)]
      norm_num
    rw [h]
    decide
  have hnot : ¬ ((29801:Rat) / 8) < 1 := by norm_num
  simp [format_float_seconds, hnot, hms, hss, hmm, hhh]
  rfl

/-- C9: `_format_float_seconds` renders a nonnegative sub-second value as
a dot followed by exactly the three zero-padded millisecond digits (no
leading zero), renders any value of 60 seconds or more as unpadded hours,
zero-padded two-digit minutes and seconds and three-digit milliseconds
(each component within its range), and maps 0.003 to `.003`, 65.5 to
`0:01:05.500` and 3725.125 to `1:02:05.125`. -/
theorem format_float_seconds_spec :
    (∀ n : Rat, 0 ≤ n → n < 1 →
      ∃ ms : Int, 0 ≤ ms ∧ ms < 1000
        ∧ format_float_seconds n = "." ++ lpad0 3 (toString ms))
    ∧ (∀ n : Rat, 60 ≤ n →
      ∃ hh mm ss ms : Int, 0 ≤ hh ∧ 0 ≤ mm ∧ mm < 60 ∧ 0 ≤ ss ∧ ss < 60
        ∧ 0 ≤ ms ∧ ms < 1000
        ∧ format_float_seconds n
          = toString hh ++ ":" ++ lpad0 2 (toString mm) ++ ":"
            ++ lpad0 2 (toString ss) ++ "." ++ lpad0 3 (toString ms))
    ∧ format_float_seconds (3 / 1000) = ".003"
    ∧ format_float_seconds (131 / 2) = "0:01:05.500"
    ∧ format_float_seconds (29801 / 8) = "1:02:05.125" :=
  ⟨format_sub_second, format_minutes_up, format_example_sub_second,
    format_example_minute, format_example_hour⟩

/-- Witness for C9: the general clauses applied at the example inputs. -/
theorem format_float_seconds_spec_witness :
    (∃ ms : Int, 0 ≤ ms ∧ ms < 1000
      ∧ format_float_seconds (3 / 1000) = "." ++ lpad0 3 (toString ms))
    ∧ (∃ hh mm ss ms : Int, 0 ≤ hh ∧ 0 ≤ mm ∧ mm < 60 ∧ 0 ≤ ss ∧ ss < 60
        ∧ 0 ≤ ms ∧ ms < 1000
        ∧ format_float_seconds (131 / 2)
          = toString hh ++ ":" ++ lpad0 2 (toString mm) ++ ":"
            ++ lpad0 2 (toString ss) ++ "." ++ lpad0 3 (toString ms)) :=
  ⟨format_float_seconds_spec.1 (3 / 1000) (by norm_num) (by norm_num),
    format_float_seconds_spec.2.1 (131 / 2) (by norm_num)⟩

/-- One live slot of the rich `Progress` display: the task id returned by
`add_task` and, as model bookkeeping, the host whose start created it. -/
structure Slot where
  id : Nat
  host : String
deriving DecidableEq

/-- The progress-tracker state of the callback: `self._hosts` (host name
to slot id), the live slots of `self._progress._tasks`, and the
`Progress` counter producing fresh task ids. -/
structure ProgressState where
  hosts : List (String × Nat)
  tasks : List Slot
  nextId : Nat
deriving DecidableEq

/-- Lookup in the `_hosts` dict (raises `KeyError`, i.e. `none`, when the
host was never inserted). -/
def alookupN (l : List (String × Nat)) (k : String) : Option Nat :=
match l with
| [] => none
| (k', v) :: rest => if k' = k then some v else alookupN rest k

/-- Python `self._hosts[host_name] = id`: bind `k` to `v`, shadowing any
previous binding (modelled by prepending and dropping the old binding;
only lookup is ever performed on this dict). -/
def aupdateN (l : List (String × Nat)) (k : String) (v : Nat) :
    List (String × Nat) :=
  (k, v) :: l.filter (fun p => decide (p.1 ≠ k))

/-- Embedding of `_handle_new_task` (rlo_cb.py lines 410-412):
`self._hosts[host_name] = self._progress.add_task(...)` — a fresh slot is
created unconditionally and the host's table entry is overwritten. -/
def handle_new_task (st : ProgressState) (host : String) : ProgressState :=
  { hosts := aupdateN st.hosts host st.nextId
    tasks := st.tasks ++ [{ id := st.nextId, host := host }]
    nextId := st.nextId + 1 }

/-- Embedding of the slot lookup and removal of `_on_finished_task`
(rlo_cb.py lines 372-378).  `elapsedOf` is the external reading of a live
slot's elapsed time.  `none` models the uncaught `KeyError` raised by
`self._hosts[host_name]` when the host has no entry at all; otherwise the
handler continues with the slot's elapsed time (removing the slot) or
with the defensive zero when the recorded slot is no longer live. -/
def on_finished_task (elapsedOf : Nat → Rat) (st : ProgressState)
    (host : String) : Option (Rat × ProgressState) :=
  match alookupN st.hosts host with
  | none => none
  | some slotId =>
    if st.tasks.any (fun s => s.id == slotId) then
      some (elapsedOf slotId,
        { st with tasks := st.tasks.filter (fun s => decide (s.id ≠ slotId)) })
    else
      some (0, st)

/-- A progress-tracker lifecycle event. -/
inductive PEvent where
  | started (host : String)
  | finished (host : String)
deriving DecidableEq

/-- One event step of the tracker state.  A `finished` event whose
handling raises (`none`) leaves the state as it was: the lookup fails
before any mutation. -/
def pstep (elapsedOf : Nat → Rat) (st : ProgressState) (e : PEvent) :
    ProgressState :=
match e with
| .started h => handle_new_task st h
| .finished h =>
  match on_finished_task elapsedOf st h with
  | some (_, st') => st'
  | none => st

/-- Fold a list of tracker events over a state. -/
def pprocess (elapsedOf : Nat → Rat) (st : ProgressState)
    (evs : List PEvent) : ProgressState :=
  evs.foldl (pstep elapsedOf) st

/-- The number of live slots created for host `h`. -/
def liveCount (st : ProgressState) (h : String) : Nat :=
  (st.tasks.filter (fun s => s.host == h)).length

/-- The well-matched event-stream discipline: every `started` for a host
idle in `running`, every `finished` for a host currently running. -/
def validFrom (running : List String) : List PEvent → Bool
| [] => true
| PEvent.started h :: rest => !running.contains h && validFrom (h :: running) rest
| PEvent.finished h :: rest => running.contains h && validFrom (running.erase h) rest

/-- The tracker state at callback construction: empty host table, no live
slot, counter at zero. -/
def initProgressState : ProgressState :=
  { hosts := [], tasks := [], nextId := 0 }

theorem alookupN_aupdateN_self (l : List (String × Nat)) (k : String) (v : Nat) :
    alookupN (aupdateN l k v) k = some v := by
  simp [aupdateN, alookupN]

theorem alookupN_filter_ne (l : List (String × Nat)) (k k' : String)
    (h : k' ≠ k) :
    alookupN (l.filter (fun p => decide (p.1 ≠ k))) k' = alookupN l k' := by
  induction l with
  | nil => rfl
  | cons p rest ih =>
      cases p with
      | mk k0 v0 =>
          rw [List.filter_cons]
          by_cases hp : k0 = k
          · have hd : decide ((k0, v0).1 ≠ k) = false := by simp [hp]
            rw [hd]
            have hkk : ¬ k0 = k' := by
              rw [hp]
              exact fun he => h he.symm
            simp only [Bool.false_eq_true, if_false]
            rw [ih]
            simp [alookupN, hkk]
          · have hd : decide ((k0, v0).1 ≠ k) = true := by simp [hp]
            rw [hd]
            simp only [if_true]
            by_cases hk : k0 = k'
            · simp [alookupN, hk]
            · simp [alookupN, hk]
              simpa using ih

theorem alookupN_aupdateN_ne (l : List (String × Nat)) (k k' : String)
    (v : Nat) (h : k' ≠ k) :
    alookupN (aupdateN l k v) k' = alookupN l k' := by
  have hne : ¬ k = k' := fun he => h he.symm
  simp only [aupdateN, alookupN, if_neg hne]
  exact alookupN_filter_ne l k k' h

theorem eq_of_nodup_ids {l : List Slot} (hn : (l.map Slot.id).Nodup)
    {x y : Slot} (hx : x ∈ l) (hy : y ∈ l) (hid : x.id = y.id) : x = y := by
  induction l with
  | nil => cases hx
  | cons a rest ih =>
      rw [List.map_cons, List.nodup_cons] at hn
      rcases List.mem_cons.mp hx with hxa | hxr <;>
        rcases List.mem_cons.mp hy with hya | hyr
      · rw [hxa, hya]
      · exfalso
        apply hn.1
        have hy2 : y.id ∈ List.map Slot.id rest := List.mem_map_of_mem Slot.id hyr
        rwa [← hid, hxa] at hy2
      · exfalso
        apply hn.1
        have hx2 : x.id ∈ List.map Slot.id rest := List.mem_map_of_mem Slot.id hxr
        rwa [hid, hya] at hx2
      · exact ih hn.2 hxr hyr

/-- The reachable-state invariant of the tracker under the well-matched
discipline: each running host owns exactly one live slot, its table entry
points at it, ids are bounded by the counter and pairwise distinct, and a
table entry pointing at a live id points at that host's own slot. -/
structure PInv (st : ProgressState) (running : List String) : Prop where
  count : ∀ h, liveCount st h = if running.contains h then 1 else 0
  live : ∀ h, running.contains h = true →
    ∃ s, s ∈ st.tasks ∧ s.host = h ∧ alookupN st.hosts h = some s.id
  idBound : ∀ s ∈ st.tasks, s.id < st.nextId
  idNodup : (st.tasks.map Slot.id).Nodup
  hostBound : ∀ h j, alookupN st.hosts h = some j → j < st.nextId
  owner : ∀ h j, alookupN st.hosts h = some j →
    (∃ s, s ∈ st.tasks ∧ s.id = j) →
    ∃ s, s ∈ st.tasks ∧ s.id = j ∧ s.host = h
  runNodup : running.Nodup

theorem pinv_init : PInv initProgressState [] := by
  refine ⟨?_, ?_, ?_, ?_, ?_, ?_, ?_⟩ <;>
    simp [initProgressState, liveCount, alookupN]

theorem contains_false_not_mem {l : List String} {a : String}
    (h : l.contains a = false) : a ∉ l := by
  intro hmem
  have hcon : l.elem a = true := List.elem_iff.mpr hmem
  have : l.contains a = true := hcon
  rw [h] at this
  exact Bool.false_ne_true this

theorem start_preserves (st : ProgressState) (running : List String)
    (h : String) (hInv : PInv st running)
    (hIdle : running.contains h = false) :
    PInv (handle_new_task st h) (h :: running) := by
  obtain ⟨hc, hl, hib, hin, hhb, how, hrn⟩ := hInv
  refine ⟨?_, ?_, ?_, ?_, ?_, ?_, ?_⟩
  · intro h'
    by_cases hh : h' = h
    · subst hh
      have h0 := hc h'
      rw [hIdle] at h0
      simp only [Bool.false_eq_true, if_false] at h0
      have h0' : (List.filter (fun s => s.host == h') st.tasks).length = 0 := h0
      simp [liveCount, handle_new_task, List.filter_append,
        List.contains_cons, h0']
    · have hne1 : (h == h') = false := by
        rw [beq_eq_false_iff_ne]
        exact fun he => hh he.symm
      have hne2 : (h' == h) = false := by
        rw [beq_eq_false_iff_ne]
        exact hh
      have h0 : (List.filter (fun s => s.host == h') st.tasks).length
          = if running.contains h' then 1 else 0 := hc h'
      simp [liveCount, handle_new_task, List.filter_append,
        List.contains_cons, hne1, hne2, h0]
      simp [hh]
  · intro h' hmem
    by_cases hh : h' = h
    · subst hh
      refine ⟨{ id := st.nextId, host := h' }, ?_, rfl, ?_⟩
      · simp [handle_new_task]
      · simp only [handle_new_task]
        exact alookupN_aupdateN_self st.hosts h' st.nextId
    · have hne2 : (h' == h) = false := by
        rw [beq_eq_false_iff_ne]
        exact hh
      have hmem' : running.contains h' = true := by
        rw [List.contains_cons, hne2, Bool.false_or] at hmem
        exact hmem
      obtain ⟨s, hs, hhost, hlook⟩ := hl h' hmem'
      refine ⟨s, ?_, hhost, ?_⟩
      · simp only [handle_new_task, List.mem_append]
        exact Or.inl hs
      · simp only [handle_new_task]
        rw [alookupN_aupdateN_ne _ _ _ _ hh]
        exact hlook
  · intro s hs
    simp only [handle_new_task, List.mem_append, List.mem_singleton] at hs
    rcases hs with hs | hs
    · exact Nat.lt_succ_of_lt (hib s hs)
    · rw [hs]
      exact Nat.lt_succ_self _
  · simp only [handle_new_task, List.map_append, List.map_cons, List.map_nil]
    rw [List.nodup_append]
    refine ⟨hin, List.nodup_singleton _, ?_⟩
    intro a ha hb
    simp only [List.mem_singleton] at hb
    rw [hb] at ha
    obtain ⟨s, hs, hsid⟩ := List.mem_map.mp ha
    exact absurd hsid (Nat.ne_of_lt (hib s hs))
  · intro h' j hj
    simp only [handle_new_task] at hj
    by_cases hh : h' = h
    · subst hh
      rw [alookupN_aupdateN_self] at hj
      injection hj with hj
      rw [← hj]
      exact Nat.lt_succ_self _
    · rw [alookupN_aupdateN_ne _ _ _ _ hh] at hj
      exact Nat.lt_succ_of_lt (hhb h' j hj)
  · intro h' j hj hlive
    obtain ⟨s, hs, hsid⟩ := hlive
    simp only [handle_new_task] at hj
    simp only [handle_new_task, List.mem_append, List.mem_singleton] at hs
    by_cases hh : h' = h
    · subst hh
      rw [alookupN_aupdateN_self] at hj
      injection hj with hj
      refine ⟨{ id := st.nextId, host := h' }, ?_, by simpa using hj, rfl⟩
      simp [handle_new_task]
    · rw [alookupN_aupdateN_ne _ _ _ _ hh] at hj
      rcases hs with hs | hs
      · obtain ⟨s', hs', hid', hhost'⟩ := how h' j hj ⟨s, hs, hsid⟩
        refine ⟨s', ?_, hid', hhost'⟩
        simp only [handle_new_task, List.mem_append]
        exact Or.inl hs'
      · exfalso
        have hlt : j < st.nextId := hhb h' j hj
        rw [← hsid, hs] at hlt
        exact absurd hlt (Nat.lt_irrefl _)
  · exact List.nodup_cons.mpr ⟨contains_false_not_mem hIdle, hrn⟩

theorem contains_true_mem {l : List String} {a : String}
    (h : l.contains a = true) : a ∈ l :=
  List.elem_iff.mp h

theorem not_mem_contains_false {l : List String} {a : String} (h : a ∉ l) :
    l.contains a = false := by
  cases hcon : l.contains a with
  | false => rfl
  | true => exact absurd (contains_true_mem hcon) h

theorem contains_erase_ne {l : List String} {a b : String} (h : a ≠ b) :
    (l.erase b).contains a = l.contains a := by
  cases hc : l.contains a with
  | true =>
      have : a ∈ l.erase b := (List.mem_erase_of_ne h).mpr (contains_true_mem hc)
      exact List.elem_iff.mpr this
  | false =>
      apply not_mem_contains_false
      intro hmem
      have hmem2 : a ∈ l := List.mem_of_mem_erase hmem
      have hc2 : l.contains a = true := List.elem_iff.mpr hmem2
      rw [hc] at hc2
      exact Bool.false_ne_true hc2

theorem length_one_mem_eq {l : List Slot} (hlen : l.length = 1) {x : Slot}
    (hx : x ∈ l) : l = [x] := by
  obtain ⟨a, ha⟩ := List.length_eq_one.mp hlen
  subst ha
  simp only [List.mem_singleton] at hx
  rw [hx]

theorem finish_preserves (elapsedOf : Nat → Rat) (st : ProgressState)
    (running : List String) (h : String) (hInv : PInv st running)
    (hRun : running.contains h = true) :
    PInv (pstep elapsedOf st (PEvent.finished h)) (running.erase h) := by
  obtain ⟨hc, hl, hib, hin, hhb, how, hrn⟩ := hInv
  obtain ⟨s0, hs0mem, hs0host, hs0look⟩ := hl h hRun
  have huniq : ∀ s ∈ st.tasks, s.id = s0.id → s = s0 :=
    fun s hs hid => eq_of_nodup_ids hin hs hs0mem hid
  have hany : st.tasks.any (fun s => s.id == s0.id) = true :=
    List.any_eq_true.mpr ⟨s0, hs0mem, by simp⟩
  have hstep : pstep elapsedOf st (PEvent.finished h)
      = { st with tasks := st.tasks.filter (fun s => decide (s.id ≠ s0.id)) } := by
    simp [pstep, on_finished_task, hs0look, hany]
  have hfh : st.tasks.filter (fun s => s.host == h) = [s0] := by
    apply length_one_mem_eq
    · have hcc := hc h
      rw [hRun] at hcc
      simpa [liveCount] using hcc
    · exact List.mem_filter.mpr ⟨hs0mem, by simp [hs0host]⟩
  rw [hstep]
  refine ⟨?_, ?_, ?_, ?_, ?_, ?_, ?_⟩
  · intro h'
    by_cases hh : h' = h
    · subst hh
      have hcontains : (running.erase h').contains h' = false :=
        not_mem_contains_false (hrn.not_mem_erase)
      have hz : (List.filter (fun s => s.host == h')
          (st.tasks.filter (fun s => decide (s.id ≠ s0.id)))).length = 0 := by
        rw [List.filter_comm, hfh]
        simp
      simp only [liveCount, hcontains, Bool.false_eq_true, if_false]
      exact hz
    · have hkeep : (st.tasks.filter (fun s => s.host == h')).filter
          (fun s => decide (s.id ≠ s0.id))
          = st.tasks.filter (fun s => s.host == h') := by
        rw [List.filter_eq_self]
        intro s hs
        obtain ⟨hsl, hsh⟩ := List.mem_filter.mp hs
        have hsh' : s.host = h' := by simpa using hsh
        refine decide_eq_true ?_
        intro hid
        have hse : s = s0 := huniq s hsl hid
        rw [hse] at hsh'
        exact hh (hsh'.symm.trans hs0host)
      simp only [liveCount]
      rw [List.filter_comm, hkeep, contains_erase_ne hh]
      have hcc := hc h'
      simpa [liveCount] using hcc
  · intro h' hmem'
    have hne : h' ≠ h := by
      intro he
      rw [he] at hmem'
      rw [not_mem_contains_false (hrn.not_mem_erase)] at hmem'
      exact Bool.false_ne_true hmem'
    rw [contains_erase_ne hne] at hmem'
    obtain ⟨s, hs, hhost, hlook⟩ := hl h' hmem'
    have hsne : s.id ≠ s0.id := by
      intro hid
      have hse : s = s0 := huniq s hs hid
      rw [hse] at hhost
      exact hne (hhost.symm.trans hs0host)
    exact ⟨s, List.mem_filter.mpr ⟨hs, decide_eq_true hsne⟩, hhost, hlook⟩
  · intro s hs
    exact hib s (List.mem_filter.mp hs).1
  · have hsub : List.Sublist
        ((st.tasks.filter (fun s => decide (s.id ≠ s0.id))).map Slot.id)
        (st.tasks.map Slot.id) :=
      (List.filter_sublist st.tasks).map Slot.id
    exact hsub.nodup hin
  · intro h' j hj
    exact hhb h' j hj
  · intro h' j hj hlive'
    obtain ⟨s, hs, hsid⟩ := hlive'
    obtain ⟨hsl, hspid⟩ := List.mem_filter.mp hs
    have hjne : j ≠ s0.id := by
      rw [← hsid]
      simpa using hspid
    obtain ⟨s', hs', hid', hhost'⟩ := how h' j hj ⟨s, hsl, hsid⟩
    refine ⟨s', List.mem_filter.mpr ⟨hs', decide_eq_true ?_⟩, hid', hhost'⟩
    rw [hid']
    exact hjne
  · exact hrn.erase h

theorem pprocess_cons (elapsedOf : Nat → Rat) (st : ProgressState)
    (e : PEvent) (rest : List PEvent) :
    pprocess elapsedOf st (e :: rest)
      = pprocess elapsedOf (pstep elapsedOf st e) rest := rfl

theorem pinv_count_le_one (st : ProgressState) (running : List String)
    (hInv : PInv st running) (h : String) : liveCount st h ≤ 1 := by
  rw [hInv.count h]
  split <;> simp

theorem valid_preserves (elapsedOf : Nat → Rat) :
    ∀ (evs : List PEvent) (running : List String) (st : ProgressState),
      PInv st running → validFrom running evs = true →
      ∀ h, liveCount (pprocess elapsedOf st evs) h ≤ 1 := by
  intro evs
  induction evs with
  | nil =>
      intro running st hInv _ h
      exact pinv_count_le_one st running hInv h
  | cons e rest ih =>
      intro running st hInv hvalid h
      cases e with
      | started h' =>
          simp only [validFrom, Bool.and_eq_true, Bool.not_eq_true'] at hvalid
          have hInv' := start_preserves st running h' hInv hvalid.1
          rw [pprocess_cons]
          exact ih (h' :: running) _ hInv' hvalid.2 h
      | finished h' =>
          simp only [validFrom, Bool.and_eq_true] at hvalid
          have hInv' := finish_preserves elapsedOf st running h' hInv hvalid.1
          rw [pprocess_cons]
          exact ih (running.erase h') _ hInv' hvalid.2 h

theorem orphan_persists (elapsedOf : Nat → Rat) (s0 : Slot) :
    ∀ (evs : List PEvent) (st : ProgressState),
      s0 ∈ st.tasks →
      (∀ h j, alookupN st.hosts h = some j → j ≠ s0.id) →
      s0.id < st.nextId →
      s0 ∈ (pprocess elapsedOf st evs).tasks := by
  intro evs
  induction evs with
  | nil =>
      intro st hmem _ _
      exact hmem
  | cons e rest ih =>
      intro st hmem hnomap hbound
      rw [pprocess_cons]
      cases e with
      | started h =>
          apply ih
          · simp only [pstep, handle_new_task, List.mem_append]
            exact Or.inl hmem
          · intro h' j hj
            simp only [pstep, handle_new_task] at hj
            by_cases hh : h' = h
            · subst hh
              rw [alookupN_aupdateN_self] at hj
              injection hj with hj
              rw [← hj]
              exact Ne.symm (Nat.ne_of_lt hbound)
            · rw [alookupN_aupdateN_ne _ _ _ _ hh] at hj
              exact hnomap h' j hj
          · simp only [pstep, handle_new_task]
            exact Nat.lt_succ_of_lt hbound
      | finished h =>
          cases hlook : alookupN st.hosts h with
          | none =>
              have hstep : pstep elapsedOf st (PEvent.finished h) = st := by
                simp [pstep, on_finished_task, hlook]
              rw [hstep]
              exact ih st hmem hnomap hbound
          | some j =>
              have hjne : j ≠ s0.id := hnomap h j hlook
              cases hany : st.tasks.any (fun s => s.id == j) with
              | true =>
                  have hstep : pstep elapsedOf st (PEvent.finished h)
                      = { st with tasks :=
                          st.tasks.filter (fun s => decide (s.id ≠ j)) } := by
                    simp [pstep, on_finished_task, hlook, hany]
                  rw [hstep]
                  apply ih
                  · exact List.mem_filter.mpr
                      ⟨hmem, decide_eq_true (Ne.symm hjne)⟩
                  · exact hnomap
                  · exact hbound
              | false =>
                  have hstep : pstep elapsedOf st (PEvent.finished h) = st := by
                    simp [pstep, on_finished_task, hlook, hany]
                  rw [hstep]
                  exact ih st hmem hnomap hbound

/-- C5 counterexample: a finishing event for a host that never produced a
`TaskStarted` — the host is absent from `self._hosts`, so the subscript
`self._hosts[host_name]` raises `KeyError` (modelled as `none`) and event
handling aborts instead of continuing with a zero elapsed time. -/
theorem on_finished_missing_host_counterexample :
    on_finished_task (fun _ => 0) initProgressState "web1" = none := rfl

/-- C5 (amended): when the finishing host has an entry in the
host-to-slot table but the recorded slot is no longer live, handling is
not fatal: the elapsed time defaults to zero and the state is unchanged. -/
theorem finished_without_live_slot_spec :
    ∀ (elapsedOf : Nat → Rat) (st : ProgressState) (host : String)
      (slotId : Nat),
      alookupN st.hosts host = some slotId →
      (∀ s ∈ st.tasks, s.id ≠ slotId) →
      on_finished_task elapsedOf st host = some (0, st) := by
  intro e st host slotId hlook hnone
  have hany : st.tasks.any (fun s => s.id == slotId) = false := by
    rw [List.any_eq_false]
    intro s hs
    simp [hnone s hs]
  simp [on_finished_task, hlook, hany]

/-- Witness for C5's amended statement: a stale table entry with no live
slot yields the defensive zero. -/
theorem finished_without_live_slot_spec_witness :
    on_finished_task (fun _ => 0)
      { hosts := [("web1", 5)], tasks := [], nextId := 6 } "web1"
      = some (0, { hosts := [("web1", 5)], tasks := [], nextId := 6 }) :=
  finished_without_live_slot_spec (fun _ => 0)
    { hosts := [("web1", 5)], tasks := [], nextId := 6 } "web1" 5 rfl
    (by intro s hs; cases hs)

/-- C10: a `TaskStarted` for a host that is already running overwrites the
host's table entry with a freshly created slot id while the previous slot
stays live (two live slots for that host), and no sequence of later
events ever removes the orphaned slot; under the well-matched discipline
(each start matched by a finish before the host's next start) every state
reached from the initial one has at most one live slot per host. -/
theorem progress_overwrite_spec :
    (∀ (st : ProgressState) (h : String) (s0 : Slot),
      s0 ∈ st.tasks → s0.host = h →
      (∀ s ∈ st.tasks, s.id < st.nextId) →
      (∀ h', h' ≠ h → alookupN st.hosts h' ≠ some s0.id) →
      alookupN (handle_new_task st h).hosts h = some st.nextId
      ∧ st.nextId ∉ st.tasks.map Slot.id
      ∧ s0 ∈ (handle_new_task st h).tasks
      ∧ 2 ≤ liveCount (handle_new_task st h) h
      ∧ ∀ (elapsedOf : Nat → Rat) (evs : List PEvent),
          s0 ∈ (pprocess elapsedOf (handle_new_task st h) evs).tasks)
    ∧ (∀ (elapsedOf : Nat → Rat) (evs : List PEvent),
        validFrom [] evs = true →
        ∀ h, liveCount (pprocess elapsedOf initProgressState evs) h ≤ 1) := by
  constructor
  · intro st h s0 hmem hhost hbound hnomap
    refine ⟨?_, ?_, ?_, ?_, ?_⟩
    · simp only [handle_new_task]
      exact alookupN_aupdateN_self _ _ _
    · intro hmem'
      obtain ⟨s, hs, hsid⟩ := List.mem_map.mp hmem'
      exact absurd hsid (Nat.ne_of_lt (hbound s hs))
    · simp only [handle_new_task, List.mem_append]
      exact Or.inl hmem
    · have h1 : s0 ∈ st.tasks.filter (fun s => s.host == h) :=
        List.mem_filter.mpr ⟨hmem, by simp [hhost]⟩
      have h2 : 0 < (st.tasks.filter (fun s => s.host == h)).length :=
        List.length_pos_of_mem h1
      simp [liveCount, handle_new_task, List.filter_append]
      omega
    · intro elapsedOf evs
      apply orphan_persists
      · simp only [handle_new_task, List.mem_append]
        exact Or.inl hmem
      · intro h' j hj
        simp only [handle_new_task] at hj
        by_cases hh : h' = h
        · subst hh
          rw [alookupN_aupdateN_self] at hj
          injection hj with hj
          rw [← hj]
          exact Ne.symm (Nat.ne_of_lt (hbound s0 hmem))
        · rw [alookupN_aupdateN_ne _ _ _ _ hh] at hj
          intro he
          rw [he] at hj
          exact hnomap h' hh hj
      · simp only [handle_new_task]
        exact Nat.lt_succ_of_lt (hbound s0 hmem)
  · intro elapsedOf evs hvalid h
    exact valid_preserves elapsedOf evs [] initProgressState pinv_init hvalid h

/-- Witness for C10: a second start for the already-running host `web1`
yields two live slots; a well-matched start/finish pair keeps at most
one. -/
theorem progress_overwrite_spec_witness :
    2 ≤ liveCount (handle_new_task
      { hosts := [("web1", 0)], tasks := [{ id := 0, host := "web1" }],
        nextId := 1 } "web1") "web1"
    ∧ liveCount (pprocess (fun _ => 0) initProgressState
        [PEvent.started "app", PEvent.finished "app"]) "app" ≤ 1 :=
  ⟨(progress_overwrite_spec.1
      { hosts := [("web1", 0)], tasks := [{ id := 0, host := "web1" }],
        nextId := 1 } "web1" { id := 0, host := "web1" }
      (by simp) rfl
      (by intro s hs; simp at hs; rw [hs]; decide)
      (by
        intro h' hne heq
        have hne2 : ¬ "web1" = h' := fun he => hne he.symm
        simp [alookupN, hne2] at heq)).2.2.2.1,
    progress_overwrite_spec.2 (fun _ => 0)
      [PEvent.started "app", PEvent.finished "app"] (by decide) "app"⟩

/-- The role-banner state of the callback: `_current_role` (Python `None`
at construction, hence `Option`), `_last_printed_role` and
`_should_print_role`.  Note the sentinel for a task without a role is the
*string* "None" (from `_get_task_infos`), distinct from Python `None`. -/
structure RoleState where
  currentRole : Option String
  lastPrintedRole : Option String
  shouldPrintRole : Bool
deriving DecidableEq

/-- Embedding of `_handle_role(role_name)` (rlo_cb.py lines 414-423). -/
def handle_role (s : RoleState) (role_name : String) : RoleState :=
  let s1 := if s.currentRole ≠ some role_name then
      { s with shouldPrintRole := true, currentRole := some role_name }
    else s
  let s2 := if role_name = "None" then { s1 with shouldPrintRole := false }
    else s1
  if s2.lastPrintedRole = s2.currentRole then
    { s2 with shouldPrintRole := false }
  else s2

/-- An output line attributable to `_log_task`: the role banner (carrying
`_current_role` at print time) or the task's own log line. -/
inductive OutLine where
  | roleBanner (r : Option String)
  | taskLine
deriving DecidableEq

/-- Embedding of `_log_task` (rlo_cb.py lines 435-444), restricted to the
banner bookkeeping: print the pending banner (if armed) immediately
before the log line, record it in `_last_printed_role`, disarm. -/
def log_task (s : RoleState) : RoleState × List OutLine :=
  if s.shouldPrintRole then
    ({ s with lastPrintedRole := s.currentRole, shouldPrintRole := false },
      [OutLine.roleBanner s.currentRole, OutLine.taskLine])
  else (s, [OutLine.taskLine])

/-- A finished-task event as the role logic sees it: the task's role name
(the sentinel string "None" when it has none) and whether
`_should_log_task` decided to print a log line for it. -/
structure FinEvent where
  role : String
  logged : Bool
deriving DecidableEq

/-- One finished task (rlo_cb.py lines 372-396): `_handle_role` always
runs, `_log_task` runs only when the task is logged. -/
def rstep (s : RoleState) (e : FinEvent) : RoleState × List OutLine :=
  let s1 := handle_role s e.role
  if e.logged then log_task s1 else (s1, [])

/-- Process a stream of finished-task events, keeping each event's output
lines separate. -/
def rprocess (s : RoleState) : List FinEvent → RoleState × List (List OutLine)
| [] => (s, [])
| e :: rest =>
  let p := rstep s e
  let q := rprocess p.1 rest
  (q.1, p.2 :: q.2)

/-- The state after a stream of events. -/
def rstateAfter (s : RoleState) (evs : List FinEvent) : RoleState :=
  (rprocess s evs).1

/-- The per-event outputs of a stream of events. -/
def routs (s : RoleState) (evs : List FinEvent) : List (List OutLine) :=
  (rprocess s evs).2

/-- The role state at callback construction. -/
def initRoleState : RoleState :=
  { currentRole := none, lastPrintedRole := none, shouldPrintRole := false }

/-- How many banner lines for role `r` appear in the given outputs. -/
def countBanner (outs : List (List OutLine)) (r : String) : Nat :=
  (outs.join.filter (fun l => l == OutLine.roleBanner (some r))).length

/-- The property C6 claims: across every maximal contiguous sequence of
finished tasks sharing a role `R` other than the sentinel "None", the
banner for `R` is printed exactly once. -/
def bannerOncePerRun (evs : List FinEvent) : Prop :=
  ∀ (pre seg post : List FinEvent) (R : String),
    evs = pre ++ seg ++ post → seg ≠ [] →
    (∀ e ∈ seg, e.role = R) → R ≠ "None" →
    (∀ e, pre.getLast? = some e → e.role ≠ R) →
    (∀ e, post.head? = some e → e.role ≠ R) →
    countBanner (routs (rstateAfter initRoleState pre) seg) R = 1

theorem countBanner_cons (o : List OutLine) (outs : List (List OutLine))
    (r : String) :
    countBanner (o :: outs) r
      = (o.filter (fun l => l == OutLine.roleBanner (some r))).length
        + countBanner outs r := by
  simp [countBanner, List.join, List.filter_append]

theorem rprocess_cons_state (s : RoleState) (e : FinEvent)
    (rest : List FinEvent) :
    rstateAfter s (e :: rest) = rstateAfter (rstep s e).1 rest := rfl

theorem rprocess_cons_outs (s : RoleState) (e : FinEvent)
    (rest : List FinEvent) :
    routs s (e :: rest) = (rstep s e).2 :: routs (rstep s e).1 rest := rfl

theorem handle_role_current (s : RoleState) (role : String) :
    (handle_role s role).currentRole = some role := by
  unfold handle_role
  split_ifs <;> (try simp_all) <;> (try split) <;> simp_all

theorem handle_role_last (s : RoleState) (role : String) :
    (handle_role s role).lastPrintedRole = s.lastPrintedRole := by
  unfold handle_role
  split_ifs <;> (try simp_all) <;> (try split) <;> simp_all

theorem handle_role_should_ne_none (s : RoleState) (role : String)
    (h : (handle_role s role).shouldPrintRole = true) : role ≠ "None" := by
  intro he
  subst he
  unfold handle_role at h
  split_ifs at h <;> (try simp_all) <;> (try split at h) <;> simp_all

theorem handle_role_suppressed (s : RoleState) (R : String)
    (hc : s.currentRole = some R) (hl : s.lastPrintedRole = some R) :
    handle_role s R = { s with shouldPrintRole := false } := by
  unfold handle_role
  split_ifs <;> (try simp_all) <;> (try split) <;> simp_all

theorem handle_role_armed (s : RoleState) (R : String) (hR : R ≠ "None")
    (hInv : s.shouldPrintRole = false →
      s.currentRole = none ∨ s.currentRole = some "None"
        ∨ s.lastPrintedRole = s.currentRole)
    (hlast : s.lastPrintedRole ≠ some R) :
    (handle_role s R).shouldPrintRole = true := by
  by_cases h1 : s.currentRole = some R
  · have hs : handle_role s R = s := by
      unfold handle_role
      simp [h1, hR, hlast]
    rw [hs]
    rcases Bool.eq_false_or_eq_true s.shouldPrintRole with hb | hb
    · exact hb
    · exfalso
      rcases hInv hb with hc | hc | hc
      · rw [h1] at hc
        cases hc
      · rw [h1] at hc
        injection hc with hc
        exact hR hc
      · rw [h1] at hc
        exact hlast hc
  · have hs : handle_role s R
        = { s with currentRole := some R, shouldPrintRole := true } := by
      unfold handle_role
      simp [h1, hR, hlast]
    rw [hs]

/-- The reachable-state invariant of the role logic: whenever the pending
flag is down, either no role was ever seen, the current role is the
sentinel, or the current role is the one last printed. -/
def RoleInv (s : RoleState) : Prop :=
  s.shouldPrintRole = false →
    s.currentRole = none ∨ s.currentRole = some "None"
      ∨ s.lastPrintedRole = s.currentRole

theorem roleinv_init : RoleInv initRoleState := fun _ => Or.inl rfl

theorem roleinv_handle (s : RoleState) (role : String) (h : RoleInv s) :
    RoleInv (handle_role s role) := by
  intro hf
  by_cases hR : role = "None"
  · right
    left
    rw [handle_role_current s role, hR]
  · by_cases hl2 : s.lastPrintedRole = some role
    · right
      right
      rw [handle_role_current s role, handle_role_last s role]
      exact hl2
    · exfalso
      have harmed := handle_role_armed s role hR h hl2
      rw [hf] at harmed
      exact Bool.false_ne_true harmed

theorem rstep_cases (s : RoleState) (e : FinEvent) :
    (e.logged = false ∧ rstep s e = (handle_role s e.role, []))
    ∨ (e.logged = true ∧ (handle_role s e.role).shouldPrintRole = false
        ∧ rstep s e = (handle_role s e.role, [OutLine.taskLine]))
    ∨ (e.logged = true ∧ (handle_role s e.role).shouldPrintRole = true
        ∧ rstep s e
          = ({ handle_role s e.role with
                lastPrintedRole := (handle_role s e.role).currentRole,
                shouldPrintRole := false },
              [OutLine.roleBanner (handle_role s e.role).currentRole,
                OutLine.taskLine])) := by
  rcases Bool.eq_false_or_eq_true e.logged with hb | hb
  · rcases Bool.eq_false_or_eq_true (handle_role s e.role).shouldPrintRole
        with hs | hs
    · right
      right
      refine ⟨hb, hs, ?_⟩
      simp [rstep, hb, log_task, hs]
    · right
      left
      refine ⟨hb, hs, ?_⟩
      simp [rstep, hb, log_task, hs]
  · left
    exact ⟨hb, by simp [rstep, hb]⟩

theorem roleinv_rstep (s : RoleState) (e : FinEvent) (h : RoleInv s) :
    RoleInv (rstep s e).1 := by
  rcases rstep_cases s e with ⟨_, hstep⟩ | ⟨_, _, hstep⟩ | ⟨_, _, hstep⟩
  · rw [hstep]
    exact roleinv_handle s e.role h
  · rw [hstep]
    exact roleinv_handle s e.role h
  · rw [hstep]
    intro _
    right
    right
    rfl

theorem roleinv_after (evs : List FinEvent) :
    ∀ s, RoleInv s → RoleInv (rstateAfter s evs) := by
  induction evs with
  | nil =>
      intro s h
      exact h
  | cons e rest ih =>
      intro s h
      rw [rprocess_cons_state]
      exact ih _ (roleinv_rstep s e h)

theorem seg_suppressed (R : String) :
    ∀ (seg : List FinEvent) (s : RoleState),
      (∀ e ∈ seg, e.role = R) →
      s.currentRole = some R → s.lastPrintedRole = some R →
      countBanner (routs s seg) R = 0
      ∧ (rstateAfter s seg).currentRole = some R
      ∧ (rstateAfter s seg).lastPrintedRole = some R := by
  intro seg
  induction seg with
  | nil =>
      intro s _ hc hl
      exact ⟨rfl, hc, hl⟩
  | cons e rest ih =>
      intro s hroles hc hl
      have her : e.role = R := hroles e (List.mem_cons_self e rest)
      have hroles' : ∀ e' ∈ rest, e'.role = R :=
        fun e' he' => hroles e' (List.mem_cons_of_mem e he')
      have hsup : handle_role s e.role = { s with shouldPrintRole := false } := by
        rw [her]
        exact handle_role_suppressed s R hc hl
      have hsp : (handle_role s e.role).shouldPrintRole = false := by
        rw [hsup]
      rcases rstep_cases s e with ⟨hlog, hstep⟩ | ⟨hlog, hsp', hstep⟩
        | ⟨hlog, hsp', hstep⟩
      · rw [rprocess_cons_outs, rprocess_cons_state, hstep]
        simp only [countBanner_cons, List.filter_nil, List.length_nil]
        have hrec := ih { s with shouldPrintRole := false } hroles' hc hl
        rw [hsup]
        simpa using hrec
      · rw [rprocess_cons_outs, rprocess_cons_state, hstep]
        simp only [countBanner_cons]
        have hrec := ih { s with shouldPrintRole := false } hroles' hc hl
        rw [hsup]
        simpa using hrec
      · rw [hsp] at hsp'
        cases hsp'

theorem seg_at_most_one (R : String) :
    ∀ (seg : List FinEvent) (s : RoleState),
      (∀ e ∈ seg, e.role = R) →
      countBanner (routs s seg) R ≤ 1 := by
  intro seg
  induction seg with
  | nil =>
      intro s _
      simp [routs, rprocess, countBanner]
  | cons e rest ih =>
      intro s hroles
      have her : e.role = R := hroles e (List.mem_cons_self e rest)
      have hroles' : ∀ e' ∈ rest, e'.role = R :=
        fun e' he' => hroles e' (List.mem_cons_of_mem e he')
      rcases rstep_cases s e with ⟨hlog, hstep⟩ | ⟨hlog, hsp', hstep⟩
        | ⟨hlog, hsp', hstep⟩
      · rw [rprocess_cons_outs, hstep]
        simp only [countBanner_cons, List.filter_nil, List.length_nil]
        simpa using ih _ hroles'
      · rw [rprocess_cons_outs, hstep]
        simp only [countBanner_cons]
        have hz : (List.filter (fun l => l == OutLine.roleBanner (some R))
            [OutLine.taskLine]).length = 0 := rfl
        rw [hz]
        simpa using ih _ hroles'
      · rw [rprocess_cons_outs]
        simp only [hstep]
        have hcur : (handle_role s e.role).currentRole = some R := by
          rw [handle_role_current, her]
        have hrest := seg_suppressed R rest
          { handle_role s e.role with
            lastPrintedRole := (handle_role s e.role).currentRole,
            shouldPrintRole := false } hroles' (by simpa using hcur)
          (by simpa using hcur)
        rw [countBanner_cons, hrest.1, hcur]
        simp

theorem seg_exactly_one (R : String) (hR : R ≠ "None") :
    ∀ (seg : List FinEvent) (s : RoleState),
      (∀ e ∈ seg, e.role = R) →
      (∃ e, e ∈ seg ∧ e.logged = true) →
      RoleInv s → s.lastPrintedRole ≠ some R →
      countBanner (routs s seg) R = 1 := by
  intro seg
  induction seg with
  | nil =>
      intro s _ hex _ _
      obtain ⟨e, he, _⟩ := hex
      cases he
  | cons e rest ih =>
      intro s hroles hex hInv hlast
      have her : e.role = R := hroles e (List.mem_cons_self e rest)
      have hroles' : ∀ e' ∈ rest, e'.role = R :=
        fun e' he' => hroles e' (List.mem_cons_of_mem e he')
      rcases rstep_cases s e with ⟨hlog, hstep⟩ | ⟨hlog, hsp', hstep⟩
        | ⟨hlog, hsp', hstep⟩
      · have hex' : ∃ e', e' ∈ rest ∧ e'.logged = true := by
          obtain ⟨e', he', hl'⟩ := hex
          rcases List.mem_cons.mp he' with he0 | he0
          · rw [he0, hlog] at hl'
            cases hl'
          · exact ⟨e', he0, hl'⟩
        rw [rprocess_cons_outs]
        simp only [hstep]
        rw [countBanner_cons]
        have hInv' := roleinv_handle s e.role hInv
        have hlast' : (handle_role s e.role).lastPrintedRole ≠ some R := by
          rw [handle_role_last]
          exact hlast
        rw [ih _ hroles' hex' hInv' hlast']
        rfl
      · exfalso
        have harmed := handle_role_armed s R hR hInv hlast
        rw [← her] at harmed
        rw [harmed] at hsp'
        cases hsp'
      · rw [rprocess_cons_outs]
        simp only [hstep]
        have hcur : (handle_role s e.role).currentRole = some R := by
          rw [handle_role_current, her]
        have hrest := seg_suppressed R rest
          { handle_role s e.role with
            lastPrintedRole := (handle_role s e.role).currentRole,
            shouldPrintRole := false } hroles' (by simpa using hcur)
          (by simpa using hcur)
        rw [countBanner_cons, hrest.1, hcur]
        simp

theorem routs_shape (evs : List FinEvent) :
    ∀ (s : RoleState), ∀ out ∈ routs s evs,
      out = [] ∨ out = [OutLine.taskLine]
      ∨ ∃ r : String, r ≠ "None"
          ∧ out = [OutLine.roleBanner (some r), OutLine.taskLine] := by
  induction evs with
  | nil =>
      intro s out hout
      cases hout
  | cons e rest ih =>
      intro s out hout
      rw [rprocess_cons_outs] at hout
      rcases List.mem_cons.mp hout with h0 | h0
      · rcases rstep_cases s e with ⟨_, hstep⟩ | ⟨_, _, hstep⟩
          | ⟨_, hsp', hstep⟩
        · left
          rw [h0, hstep]
        · right
          left
          rw [h0, hstep]
        · right
          right
          refine ⟨e.role, handle_role_should_ne_none s e.role hsp', ?_⟩
          rw [h0, hstep, handle_role_current]
      · exact ih _ out h0

theorem banner_not_none (evs : List FinEvent) (s : RoleState) :
    OutLine.roleBanner (some "None") ∉ (routs s evs).join
    ∧ OutLine.roleBanner none ∉ (routs s evs).join := by
  constructor
  · intro hmem
    obtain ⟨out, hout, hin⟩ := List.mem_join.mp hmem
    rcases routs_shape evs s out hout with h | h | ⟨r, hr, h⟩ <;>
      rw [h] at hin <;> simp at hin
    exact hr hin.symm
  · intro hmem
    obtain ⟨out, hout, hin⟩ := List.mem_join.mp hmem
    rcases routs_shape evs s out hout with h | h | ⟨r, hr, h⟩ <;>
      rw [h] at hin <;> simp at hin

/-- C6 counterexample: the stream role `r1` (logged), roleless task
(logged), role `r1` again (logged).  The final event forms a maximal
contiguous `r1` sequence, but its banner count is 0, not 1:
`_last_printed_role` is still `r1`, so the second `r1` run prints no
banner. -/
theorem role_banner_counterexample :
    ¬ bannerOncePerRun
      [{ role := "r1", logged := true }, { role := "None", logged := true },
        { role := "r1", logged := true }] := by
  intro hcl
  have h := hcl
    [{ role := "r1", logged := true }, { role := "None", logged := true }]
    [{ role := "r1", logged := true }] [] "r1" rfl (by simp)
    (by
      intro e he
      simp at he
      rw [he])
    (by decide)
    (by
      intro e he
      simp at he
      rw [← he]
      decide)
    (by
      intro e he
      simp at he)
  have hz : countBanner (routs (rstateAfter initRoleState
      [{ role := "r1", logged := true }, { role := "None", logged := true }])
      [{ role := "r1", logged := true }]) "r1" = 0 := by decide
  rw [hz] at h
  cases h

/-- C6 (amended): across every event stream, a banner is never printed
for the sentinel role "None" (nor for the initial Python-`None` state);
every per-event output is empty, a lone log line, or a banner immediately
followed by the log line; at most one banner for `R` is printed across
any contiguous sequence of finished tasks sharing role `R`; and exactly
one is printed across such a sequence when some task in it is logged and
`R` differs from the last role for which a banner was printed when the
sequence starts. -/
theorem role_banner_print_spec :
    (∀ evs : List FinEvent,
      OutLine.roleBanner (some "None") ∉ (routs initRoleState evs).join
      ∧ OutLine.roleBanner none ∉ (routs initRoleState evs).join)
    ∧ (∀ (evs : List FinEvent) (out : List OutLine),
        out ∈ routs initRoleState evs →
        out = [] ∨ out = [OutLine.taskLine]
        ∨ ∃ r : String, r ≠ "None"
            ∧ out = [OutLine.roleBanner (some r), OutLine.taskLine])
    ∧ (∀ (pre seg : List FinEvent) (R : String),
        (∀ e ∈ seg, e.role = R) →
        countBanner (routs (rstateAfter initRoleState pre) seg) R ≤ 1)
    ∧ (∀ (pre seg : List FinEvent) (R : String),
        R ≠ "None" → (∀ e ∈ seg, e.role = R) →
        (∃ e, e ∈ seg ∧ e.logged = true) →
        (rstateAfter initRoleState pre).lastPrintedRole ≠ some R →
        countBanner (routs (rstateAfter initRoleState pre) seg) R = 1) := by
  refine ⟨fun evs => banner_not_none evs initRoleState,
    fun evs => routs_shape evs initRoleState,
    fun pre seg R hroles => seg_at_most_one R seg _ hroles,
    fun pre seg R hR hroles hex hlast => ?_⟩
  exact seg_exactly_one R hR seg _ hroles hex
    (roleinv_after pre initRoleState roleinv_init) hlast

/-- Witness for C6's amended statement: a single logged task with role
`app`, starting from the initial state, prints its banner exactly once. -/
theorem role_banner_print_spec_witness :
    countBanner (routs (rstateAfter initRoleState [])
      [{ role := "app", logged := true }]) "app" = 1 :=
  role_banner_print_spec.2.2.2 [] [{ role := "app", logged := true }] "app"
    (by decide)
    (by
      intro e he
      simp at he
      rw [he])
    ⟨{ role := "app", logged := true }, by simp, rfl⟩
    (by decide)
